import Mathlib

/-!
Verification of the data-loading/cleaning and aggregation core of the
personal life tracker (`logic.py`).

The store file and the in-memory dataframe are shallowly embedded.  A CSV
cell is classified by which of the pandas coercions used in `logic.py`
accept its text:

* `Cell.ts t`   — text that `pd.to_datetime` parses, as seconds since the
  epoch (timezone-naive instants; the epoch is midnight of day 0);
* `Cell.num q`  — text that `pd.to_numeric` parses, as an exact rational;
* `Cell.date d` — an ISO calendar-date text, as a day number
  (`pd.to_datetime` parses it to midnight of that day);
* `Cell.per n`  — a period token produced by `dt.to_period` (never read
  back from disk by any coercion);
* `Cell.str s`  — any other text (rejected by both parsers);
* `Cell.na`     — a missing value (NaN/NaT/pd.NA).

A dataframe (`DF`) is a list of column names plus one list of cells per
row; columns are addressed by the index of the first occurrence of their
name, as in pandas.  Machine floats are modelled by exact rationals and
`datetime` values by natural numbers of seconds, so a calendar date is
`t / 86400` and `timedelta.days` of a non-negative difference is floor
division by 86400.
-/

namespace LifeTrack

/-- A raw CSV/dataframe cell, classified by which pandas coercion accepts
its underlying text (see the module doc comment). -/
inductive Cell where
  | na : Cell
  | ts (t : Nat) : Cell
  | num (q : Rat) : Cell
  | date (d : Nat) : Cell
  | per (n : Nat) : Cell
  | str (s : String) : Cell
deriving DecidableEq, Repr

/-- Model of `pd.to_datetime(x, errors='coerce')` on one cell: datetime
text parses to its instant, ISO date text parses to midnight of that day,
everything else (missing values, numeric text, other text) becomes `none`
(NaT). -/
def toDatetime : Cell → Option Nat
  | Cell.ts t => some t
  | Cell.date d => some (d * 86400)
  | _ => none

/-- Model of `pd.to_numeric(x, errors='coerce')` on one cell: numeric text
parses to its rational value, everything else becomes `none` (NaN). -/
def toNumeric : Cell → Option Rat
  | Cell.num q => some q
  | _ => none

/-- Model of `.astype(str)` on one cell: a missing value renders as the
literal text "nan" (as pandas does), plain text renders as itself; the
renderings of the remaining cell kinds are opaque (no claim depends on
them). -/
def astypeStr : Cell → String
  | Cell.na => "nan"
  | Cell.str s => s
  | Cell.ts t => "t" ++ toString t
  | Cell.num q => "q" ++ toString q.num ++ "d" ++ toString q.den
  | Cell.date d => "d" ++ toString d
  | Cell.per n => "p" ++ toString n

/-- Model of `.replace("nan", "")`: the exact text "nan" becomes the empty
string. -/
def scrub (s : String) : String := if s = "nan" then "" else s

/-- `df['timestamp'] = pd.to_datetime(df['timestamp'], errors='coerce')`
acting on one cell. -/
def coerceTs (c : Cell) : Cell :=
  match toDatetime c with
  | some t => Cell.ts t
  | none => Cell.na

/-- `df['quantity'] = pd.to_numeric(df['quantity'], errors='coerce')`
acting on one cell. -/
def coerceNum (c : Cell) : Cell :=
  match toNumeric c with
  | some q => Cell.num q
  | none => Cell.na

/-- `.astype(str).replace("nan", "")` acting on one cell (used for the
`activity` and `unit` columns; the extra `.fillna('')` on `unit` is a
no-op because `.astype(str)` never leaves a missing value). -/
def cleanStr (c : Cell) : Cell := Cell.str (scrub (astypeStr c))

/-- `dt.date` of a cleaned timestamp cell. -/
def dateOfCell : Cell → Cell
  | Cell.ts t => Cell.date (t / 86400)
  | _ => Cell.na

/-- Index of the first occurrence of a name in a column list (pandas
column addressing); equals the length when absent. -/
def idxOf (c : String) : List String → Nat
  | [] => 0
  | x :: t => if x = c then 0 else idxOf c t + 1

/-- Cell of a row at a position; missing positions read as NaN. -/
def getAt (r : List Cell) (i : Nat) : Cell := r.getD i Cell.na

/-- Replace the cell at a position (no-op beyond the row's length). -/
def setAt : List Cell → Nat → Cell → List Cell
  | [], _, _ => []
  | _ :: t, 0, v => v :: t
  | c :: t, i + 1, v => c :: setAt t i v

/-- Apply a function to the cell at a position. -/
def modAt (r : List Cell) (i : Nat) (f : Cell → Cell) : List Cell :=
  setAt r i (f (getAt r i))

/-- An in-memory dataframe: column names plus one cell list per row. -/
structure DF where
  cols : List String
  rows : List (List Cell)
deriving DecidableEq, Repr

/-- `df[c] = df[c].map f` for a present column `c`. -/
def mapNamed (df : DF) (c : String) (f : Cell → Cell) : DF :=
  ⟨df.cols, df.rows.map (fun r => modAt r (idxOf c df.cols) f)⟩

/-- Net effect of `for col in need: if col not in df.columns: df[col] =
pd.NA` — the missing names are appended, each as an all-NaN column. -/
def ensureCols (df : DF) (need : List String) : DF :=
  let miss := need.filter (fun c => !(df.cols.contains c))
  ⟨df.cols ++ miss, df.rows.map (fun r => r ++ List.replicate miss.length Cell.na)⟩

/-- `df.dropna(subset=['timestamp', 'quantity'])`. -/
def dropnaTsQty (df : DF) : DF :=
  let ti := idxOf "timestamp" df.cols
  let qi := idxOf "quantity" df.cols
  ⟨df.cols, df.rows.filter (fun r => !(getAt r ti == Cell.na) && !(getAt r qi == Cell.na))⟩

/-- `df['date'] = df['timestamp'].dt.date` (the `date` column is already
present at this point of the pipeline). -/
def setDateFromTs (df : DF) : DF :=
  let ti := idxOf "timestamp" df.cols
  let di := idxOf "date" df.cols
  ⟨df.cols, df.rows.map (fun r => setAt r di (dateOfCell (getAt r ti)))⟩

/-- `df[cs]` — restrict to the named columns, in the given order. -/
def selectCols (df : DF) (cs : List String) : DF :=
  ⟨cs, df.rows.map (fun r => cs.map (fun c => getAt r (idxOf c df.cols)))⟩

/-- The canonical five-column schema of `logic.py`. -/
def canonCols : List String := ["timestamp", "activity", "quantity", "unit", "date"]

/-- The Norwegian-to-English column-name map of `load_data`. -/
def legacyMap : List (String × String) :=
  [("tidspunkt", "timestamp"), ("aktivitet", "activity"),
   ("mengde", "quantity"), ("enhet", "unit")]

/-- One column name after the backward-compatibility rename: a legacy name
is replaced by its canonical counterpart only when that canonical name is
not already among the columns (`cols_to_rename` in `load_data`). -/
def renameCol (cols : List String) (c : String) : String :=
  match legacyMap.lookup c with
  | some v => if cols.contains v then c else v
  | none => c

/-- `df.rename(columns=cols_to_rename)` on the header. -/
def renamedCols (cols : List String) : List String := cols.map (renameCol cols)

/-- The on-disk store: the header line plus one cell list per data row.
A zero-byte file is modelled as an absent store (the writer's
absent-or-empty check treats the two alike; no claim exercises the
loader on a zero-byte file, where `pd.read_csv` raises). -/
structure StoreFile where
  header : List String
  rows : List (List Cell)
deriving DecidableEq, Repr

/-- A store file as `pd.read_csv` accepts it: no duplicated column names
and every row as wide as the header. -/
def StoreFile.WF (f : StoreFile) : Prop :=
  f.header.Nodup ∧ ∀ r ∈ f.rows, r.length = f.header.length

/-- `load_data` of `logic.py`: `none` iff the file is absent; otherwise
parse, rename legacy columns, ensure the canonical columns, coerce
`timestamp` and `quantity`, clean `activity` and `unit`, drop rows whose
`timestamp` or `quantity` failed to coerce, recompute `date` from the
cleaned `timestamp`, and restrict to the canonical columns. -/
def load_data (fs : Option StoreFile) : Option DF :=
  match fs with
  | none => none
  | some f =>
    if f.rows.isEmpty then some ⟨canonCols, []⟩
    else
      let df1 : DF := ⟨renamedCols f.header, f.rows⟩
      let df2 := ensureCols df1 canonCols
      let df3 := mapNamed df2 "timestamp" coerceTs
      let df4 := mapNamed df3 "quantity" coerceNum
      let df5 := mapNamed df4 "activity" cleanStr
      let df6 := mapNamed df5 "unit" cleanStr
      let df7 := dropnaTsQty df6
      if df7.rows.isEmpty then some ⟨canonCols, []⟩
      else some (selectCols (setDateFromTs df7) canonCols)

/-- An input record for `save_to_csv`, as the claims describe a
well-formed batch element: `activity`, `quantity` and `unit` present,
`timestamp` optional (`none` models both a missing `'timestamp'` key and
an explicit `None`). -/
structure InRec where
  activity : String
  quantity : Rat
  unit : String
  timestamp : Option Nat
deriving DecidableEq, Repr

/-- The in-place timestamping loop of `save_to_csv` on one record: a
record without a timestamp receives the current instant. -/
def stampRec (now : Nat) (a : InRec) : InRec :=
  { a with timestamp := some (a.timestamp.getD now) }

/-- The row `save_to_csv` serializes for one record: canonical column
order, with `date` derived from the (possibly just assigned) timestamp. -/
def recRow (now : Nat) (a : InRec) : List Cell :=
  let t := a.timestamp.getD now
  [Cell.ts t, Cell.str a.activity, Cell.num a.quantity, Cell.str a.unit,
   Cell.date (t / 86400)]

/-- `save_to_csv` of `logic.py`: stamps the caller's records in place
(first component of the result — the batch as the caller sees it after
the call), then appends the canonical-schema rows to the store, writing a
header exactly when the store was absent or empty.  `now` stands for the
`datetime.now()` instant read during the call. -/
def save_to_csv (now : Nat) (activities : List InRec) (fs : Option StoreFile) :
    List InRec × Option StoreFile :=
  let stamped := activities.map (stampRec now)
  let newRows := activities.map (recRow now)
  match fs with
  | none => (stamped, some ⟨canonCols, newRows⟩)
  | some f => (stamped, some ⟨f.header, f.rows ++ newRows⟩)

/-- Per-row summary of the whole cleaning pipeline, relative to the
renamed header: a row survives iff its `timestamp` and `quantity` cells
coerce, and then contributes the canonical five cells with `date` derived
fresh from the coerced timestamp (any disk-stored `date` cell is
ignored). -/
def cleanRow (cols : List String) (r : List Cell) : Option (List Cell) :=
  match toDatetime (getAt r (idxOf "timestamp" cols)),
        toNumeric (getAt r (idxOf "quantity" cols)) with
  | some t, some q =>
    some [Cell.ts t,
          Cell.str (scrub (astypeStr (getAt r (idxOf "activity" cols)))),
          Cell.num q,
          Cell.str (scrub (astypeStr (getAt r (idxOf "unit" cols)))),
          Cell.date (t / 86400)]
  | _, _ => none

/-! ### Position and cell lemmas -/

theorem getAt_nil (i : Nat) : getAt [] i = Cell.na := by
  cases i <;> rfl

theorem getAt_of_le (r : List Cell) (i : Nat) (h : r.length ≤ i) :
    getAt r i = Cell.na := by
  induction r generalizing i with
  | nil => exact getAt_nil i
  | cons c t ih =>
    cases i with
    | zero => simp at h
    | succ j => exact ih j (Nat.le_of_succ_le_succ h)

theorem getAt_append_replicate_na (r : List Cell) (k i : Nat) :
    getAt (r ++ List.replicate k Cell.na) i = getAt r i := by
  induction r generalizing i with
  | nil =>
    simp only [List.nil_append, getAt_nil]
    induction k generalizing i with
    | zero => rfl
    | succ m ih =>
      cases i with
      | zero => rfl
      | succ j => exact ih j
  | cons c t ih =>
    cases i with
    | zero => rfl
    | succ j => exact ih j

theorem length_setAt (r : List Cell) (i : Nat) (v : Cell) :
    (setAt r i v).length = r.length := by
  induction r generalizing i with
  | nil => rfl
  | cons c t ih =>
    cases i with
    | zero => rfl
    | succ j => simp [setAt, ih j]

theorem getAt_setAt_self (r : List Cell) (i : Nat) (v : Cell) (h : i < r.length) :
    getAt (setAt r i v) i = v := by
  induction r generalizing i with
  | nil => simp at h
  | cons c t ih =>
    cases i with
    | zero => rfl
    | succ j => exact ih j (Nat.lt_of_succ_lt_succ h)

theorem getAt_setAt_ne (r : List Cell) (i j : Nat) (v : Cell) (h : i ≠ j) :
    getAt (setAt r i v) j = getAt r j := by
  induction r generalizing i j with
  | nil => rfl
  | cons c t ih =>
    cases i with
    | zero =>
      cases j with
      | zero => exact absurd rfl h
      | succ j' => rfl
    | succ i' =>
      cases j with
      | zero => rfl
      | succ j' => exact ih i' j' (fun hh => h (by rw [hh]))

theorem length_modAt (r : List Cell) (i : Nat) (f : Cell → Cell) :
    (modAt r i f).length = r.length := length_setAt ..

theorem getAt_modAt_self (r : List Cell) (i : Nat) (f : Cell → Cell) (h : i < r.length) :
    getAt (modAt r i f) i = f (getAt r i) := getAt_setAt_self r i _ h

theorem getAt_modAt_ne (r : List Cell) (i j : Nat) (f : Cell → Cell) (h : i ≠ j) :
    getAt (modAt r i f) j = getAt r j := getAt_setAt_ne r i j _ h

theorem idxOf_lt_length {c : String} {cols : List String} (h : c ∈ cols) :
    idxOf c cols < cols.length := by
  induction cols with
  | nil => simp at h
  | cons x t ih =>
    by_cases hx : x = c
    · simp [idxOf, hx]
    · rcases List.mem_cons.mp h with h1 | h2
      · exact absurd h1.symm hx
      · simpa [idxOf, hx] using ih h2

theorem idxOf_of_not_mem {c : String} {cols : List String} (h : c ∉ cols) :
    idxOf c cols = cols.length := by
  induction cols with
  | nil => rfl
  | cons x t ih =>
    have hx : x ≠ c := fun hh => h (hh ▸ List.mem_cons_self x t)
    have ht : c ∉ t := fun hh => h (List.mem_cons_of_mem x hh)
    simp [idxOf, hx, ih ht]

theorem getD_idxOf {c : String} {cols : List String} (h : c ∈ cols) :
    cols.getD (idxOf c cols) "" = c := by
  induction cols with
  | nil => simp at h
  | cons x t ih =>
    by_cases hx : x = c
    · simp [idxOf, hx]
    · rcases List.mem_cons.mp h with h1 | h2
      · exact absurd h1.symm hx
      · simpa [idxOf, hx] using ih h2

theorem idxOf_inj {c₁ c₂ : String} {cols : List String}
    (h₁ : c₁ ∈ cols) (h₂ : c₂ ∈ cols) (h : idxOf c₁ cols = idxOf c₂ cols) :
    c₁ = c₂ := by
  have e1 := getD_idxOf h₁
  have e2 := getD_idxOf h₂
  rw [h] at e1
  exact e1.symm.trans e2

theorem idxOf_append_left {c : String} {l₁ : List String} (l₂ : List String)
    (h : c ∈ l₁) : idxOf c (l₁ ++ l₂) = idxOf c l₁ := by
  induction l₁ with
  | nil => simp at h
  | cons x t ih =>
    by_cases hx : x = c
    · simp [idxOf, hx]
    · rcases List.mem_cons.mp h with h1 | h2
      · exact absurd h1.symm hx
      · simp [idxOf, hx, ih h2]

theorem idxOf_append_right {c : String} {l₁ : List String} (l₂ : List String)
    (h : c ∉ l₁) : idxOf c (l₁ ++ l₂) = l₁.length + idxOf c l₂ := by
  induction l₁ with
  | nil => simp
  | cons x t ih =>
    have hx : x ≠ c := fun hh => h (hh ▸ List.mem_cons_self x t)
    have ht : c ∉ t := fun hh => h (List.mem_cons_of_mem x hh)
    simp [idxOf, hx, ih ht]
    omega

/-! ### View lemmas: reading a named column through the pipeline steps -/

theorem map_filter_map_eq_filterMap {α β γ : Type} (g : α → β) (p : β → Bool)
    (s : β → γ) (l : List α) :
    ((l.map g).filter p).map s
      = l.filterMap (fun a => if p (g a) then some (s (g a)) else none) := by
  induction l with
  | nil => rfl
  | cons a t ih =>
    by_cases hp : p (g a)
    · simp [List.filterMap_cons, hp, ih]
    · simp [List.filterMap_cons, hp, ih]

theorem setAt_view {cols : List String} {r : List Cell} {c₀ : String}
    (c : String) (v : Cell) (h₀ : c₀ ∈ cols) (hlen : r.length = cols.length) :
    getAt (setAt r (idxOf c₀ cols) v) (idxOf c cols)
      = if c = c₀ then v else getAt r (idxOf c cols) := by
  by_cases hc : c = c₀
  · subst hc
    rw [if_pos rfl]
    exact getAt_setAt_self _ _ _ (hlen ▸ idxOf_lt_length h₀)
  · rw [if_neg hc]
    apply getAt_setAt_ne
    intro he
    by_cases hm : c ∈ cols
    · exact hc (idxOf_inj h₀ hm he).symm
    · rw [idxOf_of_not_mem hm] at he
      exact absurd (he ▸ idxOf_lt_length h₀) (lt_irrefl _)

theorem modAt_view {cols : List String} {r : List Cell} {c₀ : String}
    (c : String) (f : Cell → Cell) (h₀ : c₀ ∈ cols) (hlen : r.length = cols.length) :
    getAt (modAt r (idxOf c₀ cols) f) (idxOf c cols)
      = if c = c₀ then f (getAt r (idxOf c₀ cols)) else getAt r (idxOf c cols) :=
  setAt_view c _ h₀ hlen

theorem pad_view (R l₂ : List String) (k : Nat) (r : List Cell)
    (hr : r.length = R.length) (c : String) :
    getAt (r ++ List.replicate k Cell.na) (idxOf c (R ++ l₂)) = getAt r (idxOf c R) := by
  by_cases hm : c ∈ R
  · rw [idxOf_append_left _ hm, getAt_append_replicate_na]
  · rw [idxOf_append_right _ hm, getAt_append_replicate_na, idxOf_of_not_mem hm]
    rw [getAt_of_le r _ (by omega), getAt_of_le r _ (le_of_eq hr)]

theorem filterMap_congr_mem {α β : Type} {l : List α} {p q : α → Option β}
    (h : ∀ a ∈ l, p a = q a) : l.filterMap p = l.filterMap q := by
  induction l with
  | nil => rfl
  | cons a t ih =>
    rw [List.filterMap_cons, List.filterMap_cons, h a (List.mem_cons_self a t),
      ih fun x hx => h x (List.mem_cons_of_mem a hx)]

/-! ### Characterization of the cleaning pipeline -/

/-- The whole `load_data` pipeline on an existing store file equals a
per-row filter-and-clean pass over the parsed rows, relative to the
renamed header. -/
theorem load_data_spec (f : StoreFile) (hf : f.WF) :
    load_data (some f)
      = some ⟨canonCols, f.rows.filterMap (cleanRow (renamedCols f.header))⟩ := by
  rcases f with ⟨h, rows⟩
  obtain ⟨-, hlen⟩ := hf
  by_cases hrows : rows = []
  · subst hrows
    simp [load_data]
  · have hne : rows.isEmpty = false := by
      simpa [List.isEmpty_iff] using hrows
    set R : List String := renamedCols h with hR
    have hRlen : R.length = h.length := List.length_map _ _
    set miss : List String := canonCols.filter (fun c => !(R.contains c)) with hmissdef
    set cols2 : List String := R ++ miss with hcols2
    have hmem2 : ∀ c ∈ canonCols, c ∈ cols2 := by
      intro c hc
      by_cases hcr : c ∈ R
      · exact List.mem_append_left _ hcr
      · refine List.mem_append_right _ ?_
        rw [hmissdef]
        refine List.mem_filter.mpr ⟨hc, ?_⟩
        simpa using hcr
    -- the per-row processing functions of the pipeline
    set pad : List Cell → List Cell :=
      fun r => r ++ List.replicate miss.length Cell.na with hpad
    set m1 : List Cell → List Cell :=
      fun r => modAt r (idxOf "timestamp" cols2) coerceTs with hm1
    set m2 : List Cell → List Cell :=
      fun r => modAt r (idxOf "quantity" cols2) coerceNum with hm2
    set m3 : List Cell → List Cell :=
      fun r => modAt r (idxOf "activity" cols2) cleanStr with hm3
    set m4 : List Cell → List Cell :=
      fun r => modAt r (idxOf "unit" cols2) cleanStr with hm4
    set M : List Cell → List Cell := fun r => m4 (m3 (m2 (m1 (pad r)))) with hM
    set P : List Cell → Bool := fun r =>
      !(getAt r (idxOf "timestamp" cols2) == Cell.na)
        && !(getAt r (idxOf "quantity" cols2) == Cell.na) with hP
    set S1 : List Cell → List Cell := fun r =>
      setAt r (idxOf "date" cols2) (dateOfCell (getAt r (idxOf "timestamp" cols2))) with hS1
    set S2 : List Cell → List Cell := fun r =>
      canonCols.map (fun c => getAt r (idxOf c cols2)) with hS2
    -- memberships of the canonical names
    have hmts : "timestamp" ∈ cols2 := hmem2 _ (by simp [canonCols])
    have hmac : "activity" ∈ cols2 := hmem2 _ (by simp [canonCols])
    have hmqt : "quantity" ∈ cols2 := hmem2 _ (by simp [canonCols])
    have hmun : "unit" ∈ cols2 := hmem2 _ (by simp [canonCols])
    have hmdt : "date" ∈ cols2 := hmem2 _ (by simp [canonCols])
    -- unfolding the pipeline to a filter-then-project over the parsed rows
    have hld : load_data (some ⟨h, rows⟩)
        = if ((rows.map M).filter P).isEmpty then some ⟨canonCols, []⟩
          else some ⟨canonCols, ((rows.map M).filter P).map (fun r => S2 (S1 r))⟩ := by
      simp only [load_data, hne, Bool.false_eq_true, if_false]
      have hrows6 :
          (dropnaTsQty (mapNamed (mapNamed (mapNamed (mapNamed
              (ensureCols ⟨R, rows⟩ canonCols) "timestamp" coerceTs)
              "quantity" coerceNum) "activity" cleanStr) "unit" cleanStr)).rows
            = (rows.map M).filter P := by
        show ((((((rows.map pad).map m1).map m2).map m3).map m4).filter P)
            = (rows.map M).filter P
        simp only [List.map_map]
        rfl
      have helse :
          selectCols (setDateFromTs (dropnaTsQty (mapNamed (mapNamed (mapNamed (mapNamed
              (ensureCols ⟨R, rows⟩ canonCols) "timestamp" coerceTs)
              "quantity" coerceNum) "activity" cleanStr) "unit" cleanStr))) canonCols
            = ⟨canonCols, ((rows.map M).filter P).map (fun r => S2 (S1 r))⟩ := by
        show DF.mk canonCols
            ((((((((rows.map pad).map m1).map m2).map m3).map m4).filter P).map S1).map S2)
          = _
        rw [show (((((rows.map pad).map m1).map m2).map m3).map m4).filter P
            = (rows.map M).filter P from by simp only [List.map_map]; rfl]
        simp only [List.map_map]
        rfl
      rw [hrows6, helse]
    -- per-row computation of the pipeline
    have hrow : ∀ r ∈ rows,
        (if P (M r) then some (S2 (S1 (M r))) else none) = cleanRow R r := by
      intro r hr
      have hrl : r.length = R.length := by rw [hRlen]; exact hlen r hr
      have l0 : (pad r).length = cols2.length := by
        simp [hpad, hcols2, hrl]
      have l1 : (m1 (pad r)).length = cols2.length := by
        simpa [hm1, length_modAt] using l0
      have l2 : (m2 (m1 (pad r))).length = cols2.length := by
        simpa [hm2, length_modAt] using l1
      have l3 : (m3 (m2 (m1 (pad r)))).length = cols2.length := by
        simpa [hm3, length_modAt] using l2
      have l4 : (M r).length = cols2.length := by
        simpa [hM, hm4, length_modAt] using l3
      have w0 : ∀ c, getAt (pad r) (idxOf c cols2) = getAt r (idxOf c R) :=
        fun c => pad_view R miss miss.length r hrl c
      have w1 : ∀ c, getAt (m1 (pad r)) (idxOf c cols2)
          = if c = "timestamp" then coerceTs (getAt r (idxOf "timestamp" R))
            else getAt r (idxOf c R) := by
        intro c
        show getAt (modAt (pad r) (idxOf "timestamp" cols2) coerceTs) (idxOf c cols2) = _
        rw [modAt_view c coerceTs hmts l0, w0 "timestamp", w0 c]
      have w2 : ∀ c, getAt (m2 (m1 (pad r))) (idxOf c cols2)
          = if c = "quantity" then coerceNum (getAt r (idxOf "quantity" R))
            else if c = "timestamp" then coerceTs (getAt r (idxOf "timestamp" R))
            else getAt r (idxOf c R) := by
        intro c
        show getAt (modAt (m1 (pad r)) (idxOf "quantity" cols2) coerceNum) (idxOf c cols2) = _
        rw [modAt_view c coerceNum hmqt l1, w1 "quantity", w1 c,
          if_neg (show ¬(("quantity" : String) = "timestamp") by decide)]
      have w3 : ∀ c, getAt (m3 (m2 (m1 (pad r)))) (idxOf c cols2)
          = if c = "activity" then cleanStr (getAt r (idxOf "activity" R))
            else if c = "quantity" then coerceNum (getAt r (idxOf "quantity" R))
            else if c = "timestamp" then coerceTs (getAt r (idxOf "timestamp" R))
            else getAt r (idxOf c R) := by
        intro c
        show getAt (modAt (m2 (m1 (pad r))) (idxOf "activity" cols2) cleanStr) (idxOf c cols2) = _
        rw [modAt_view c cleanStr hmac l2, w2 "activity", w2 c,
          if_neg (show ¬(("activity" : String) = "quantity") by decide),
          if_neg (show ¬(("activity" : String) = "timestamp") by decide)]
      have w4 : ∀ c, getAt (M r) (idxOf c cols2)
          = if c = "unit" then cleanStr (getAt r (idxOf "unit" R))
            else if c = "activity" then cleanStr (getAt r (idxOf "activity" R))
            else if c = "quantity" then coerceNum (getAt r (idxOf "quantity" R))
            else if c = "timestamp" then coerceTs (getAt r (idxOf "timestamp" R))
            else getAt r (idxOf c R) := by
        intro c
        show getAt (modAt (m3 (m2 (m1 (pad r)))) (idxOf "unit" cols2) cleanStr) (idxOf c cols2) = _
        rw [modAt_view c cleanStr hmun l3, w3 "unit", w3 c,
          if_neg (show ¬(("unit" : String) = "activity") by decide),
          if_neg (show ¬(("unit" : String) = "quantity") by decide),
          if_neg (show ¬(("unit" : String) = "timestamp") by decide)]
      have vts : getAt (M r) (idxOf "timestamp" cols2)
          = coerceTs (getAt r (idxOf "timestamp" R)) := by
        rw [w4 "timestamp",
          if_neg (show ¬(("timestamp" : String) = "unit") by decide),
          if_neg (show ¬(("timestamp" : String) = "activity") by decide),
          if_neg (show ¬(("timestamp" : String) = "quantity") by decide),
          if_pos rfl]
      have vqt : getAt (M r) (idxOf "quantity" cols2)
          = coerceNum (getAt r (idxOf "quantity" R)) := by
        rw [w4 "quantity",
          if_neg (show ¬(("quantity" : String) = "unit") by decide),
          if_neg (show ¬(("quantity" : String) = "activity") by decide),
          if_pos rfl]
      have vac : getAt (M r) (idxOf "activity" cols2)
          = cleanStr (getAt r (idxOf "activity" R)) := by
        rw [w4 "activity",
          if_neg (show ¬(("activity" : String) = "unit") by decide),
          if_pos rfl]
      have vun : getAt (M r) (idxOf "unit" cols2)
          = cleanStr (getAt r (idxOf "unit" R)) := by
        rw [w4 "unit", if_pos rfl]
      have hPMr : P (M r)
          = (!(coerceTs (getAt r (idxOf "timestamp" R)) == Cell.na)
              && !(coerceNum (getAt r (idxOf "quantity" R)) == Cell.na)) := by
        show (!(getAt (M r) (idxOf "timestamp" cols2) == Cell.na)
            && !(getAt (M r) (idxOf "quantity" cols2) == Cell.na)) = _
        rw [vts, vqt]
      have u : ∀ c, getAt (S1 (M r)) (idxOf c cols2)
          = if c = "date" then dateOfCell (coerceTs (getAt r (idxOf "timestamp" R)))
            else getAt (M r) (idxOf c cols2) := by
        intro c
        show getAt (setAt (M r) (idxOf "date" cols2)
            (dateOfCell (getAt (M r) (idxOf "timestamp" cols2)))) (idxOf c cols2) = _
        rw [setAt_view c _ hmdt l4, vts]
      have hS2v : S2 (S1 (M r))
          = [coerceTs (getAt r (idxOf "timestamp" R)),
             cleanStr (getAt r (idxOf "activity" R)),
             coerceNum (getAt r (idxOf "quantity" R)),
             cleanStr (getAt r (idxOf "unit" R)),
             dateOfCell (coerceTs (getAt r (idxOf "timestamp" R)))] := by
        show canonCols.map (fun c => getAt (S1 (M r)) (idxOf c cols2)) = _
        simp only [canonCols, List.map_cons, List.map_nil]
        rw [u "timestamp", if_neg (show ¬(("timestamp" : String) = "date") by decide), vts,
          u "activity", if_neg (show ¬(("activity" : String) = "date") by decide), vac,
          u "quantity", if_neg (show ¬(("quantity" : String) = "date") by decide), vqt,
          u "unit", if_neg (show ¬(("unit" : String) = "date") by decide), vun,
          u "date", if_pos rfl]
      rcases hdt : toDatetime (getAt r (idxOf "timestamp" R)) with - | t
      · have : coerceTs (getAt r (idxOf "timestamp" R)) = Cell.na := by
          simp [coerceTs, hdt]
        rw [hPMr, this]
        simp [cleanRow, hdt]
      · rcases hqn : toNumeric (getAt r (idxOf "quantity" R)) with - | q
        · have : coerceNum (getAt r (idxOf "quantity" R)) = Cell.na := by
            simp [coerceNum, hqn]
          rw [hPMr, this]
          simp [cleanRow, hdt, hqn]
        · have hct : coerceTs (getAt r (idxOf "timestamp" R)) = Cell.ts t := by
            simp [coerceTs, hdt]
          have hcq : coerceNum (getAt r (idxOf "quantity" R)) = Cell.num q := by
            simp [coerceNum, hqn]
          rw [hPMr, hct, hcq]
          simp only [cleanRow, hdt, hqn]
          rw [if_pos (by simp)]
          rw [hS2v, hct, hcq]
          simp [cleanStr, dateOfCell]
    -- assemble
    have hfm : rows.filterMap (fun r => if P (M r) then some (S2 (S1 (M r))) else none)
        = rows.filterMap (cleanRow R) := filterMap_congr_mem hrow
    have hmfm := map_filter_map_eq_filterMap M P (fun r => S2 (S1 r)) rows
    rw [hld]
    by_cases hemp : ((rows.map M).filter P).isEmpty
    · rw [if_pos hemp]
      have : ((rows.map M).filter P) = [] := List.isEmpty_iff.mp hemp
      rw [← hfm, ← hmfm, this]
      rfl
    · rw [if_neg hemp, hmfm, hfm]

/-! ### The Cleaned Table and the aggregation functions

After `load_data`, every surviving row is fully typed: `timestamp` is a
datetime, `quantity` a float, `activity` and `unit` strings, and `date`
the timestamp's calendar day.  The aggregation functions of `logic.py`
take such a table; they are embedded over a typed record. -/

/-- One row of the Cleaned Table. -/
structure Rec where
  timestamp : Nat
  activity : String
  quantity : Rat
  unit : String
  date : Nat
deriving DecidableEq, Repr

/-- Insert into a sorted list of distinct keys, keeping it sorted and
duplicate-free (the order pandas `groupby` presents group keys in). -/
def insSorted {α : Type} [DecidableEq α] (lt : α → α → Bool) (a : α) : List α → List α
  | [] => [a]
  | b :: t => if a = b then b :: t else if lt a b then a :: b :: t else b :: insSorted lt a t

/-- Strict lexical order on strings, as a boolean comparator (computed on
the character lists, which coincides with the string order). -/
def ltS (a b : String) : Bool := decide (a.data < b.data)

/-- Strict order on naturals, as a boolean comparator. -/
def ltN (a b : Nat) : Bool := decide (a < b)

/-- The distinct `activity` keys of a table, in ascending order (pandas
`groupby('activity')` key order). -/
def actKeys (df : List Rec) : List String :=
  df.foldr (fun r ks => insSorted ltS r.activity ks) []

/-- Sum of `quantity` over the rows of one activity group. -/
def sumQ (df : List Rec) (a : String) : Rat :=
  ((df.filter (fun r => r.activity == a)).map (fun r => r.quantity)).sum

/-- Floor of a rational as an integer. -/
def ratFloor (q : Rat) : Int := Int.fdiv q.num (q.den : Int)

/-- Round a rational to the nearest integer, ties to even (the numpy
rounding used by pandas `.round`). -/
def rhe (q : Rat) : Int :=
  let f := ratFloor q
  let frac := q - (f : Rat)
  if frac < 1 / 2 then f
  else if (1 : Rat) / 2 < frac then f + 1
  else if f % 2 = 0 then f else f + 1

/-- `.round(2)` on one value: round half-to-even at two decimal places. -/
def round2 (q : Rat) : Rat := (rhe (q * 100) : Rat) / 100

/-- `get_totals` of `logic.py`: empty table to empty series; otherwise
`groupby('activity')['quantity'].sum().round(2)` — one entry per distinct
category, keys ascending. -/
def get_totals (df : List Rec) : List (String × Rat) :=
  if df.isEmpty then []
  else (actKeys df).map (fun a => (a, round2 (sumQ df a)))

/-- The summary object built by `get_data_summary` (python dicts are
modelled as key-sorted association lists, since dict equality ignores
insertion order). -/
structure Summary where
  total_activities : Nat
  unique_activities : Nat
  first_entry : Nat
  last_entry : Nat
  days_tracked : Nat
  activity_counts : List (String × Nat)
  total_quantities : List (String × Rat)
deriving DecidableEq, Repr

/-- `df['timestamp'].max()` over a non-empty table. -/
def tsMax (df : List Rec) : Nat := (df.map (fun r => r.timestamp)).foldr max 0

/-- `df['timestamp'].min()` over a non-empty table. -/
def tsMin (df : List Rec) : Nat :=
  match df.map (fun r => r.timestamp) with
  | [] => 0
  | x :: t => t.foldr min x

/-- `get_data_summary` of `logic.py`: `none` models the empty dict returned
for an empty table.  `days_tracked` is `(max - min).days + 1` computed on
the raw timestamps — `timedelta.days` is floor division of the difference
by 86400 seconds. -/
def get_data_summary (df : List Rec) : Option Summary :=
  if df.isEmpty then none
  else some
    { total_activities := df.length
      unique_activities := (actKeys df).length
      first_entry := tsMin df
      last_entry := tsMax df
      days_tracked := (tsMax df - tsMin df) / 86400 + 1
      activity_counts := (actKeys df).map (fun a => (a, (df.filter (fun r => r.activity == a)).length))
      total_quantities := (actKeys df).map (fun a => (a, sumQ df a)) }

/-- The two error conditions `get_activity_timeline` raises. -/
inductive TLErr where
  | activityNotFound : TLErr
  | invalidPeriod : TLErr
deriving DecidableEq, Repr

/-- Week token of a timestamp: the index of its calendar week (model of
`dt.to_period('W')`; an opaque ascending-orderable bucket). -/
def weekOf (t : Nat) : Nat := (t / 86400 + 3) / 7

/-- Month token of a timestamp: `12 * year + (month - 1)` in the civil
calendar (model of `dt.to_period('M')`), computed from the day number by
the standard days-to-civil-date conversion. -/
def monthOf (t : Nat) : Nat :=
  let z := t / 86400 + 719468
  let era := z / 146097
  let doe := z % 146097
  let yoe := (doe - doe / 1460 + doe / 36524 - doe / 146096) / 365
  let doy := doe - (365 * yoe + yoe / 4 - yoe / 100)
  let mp := (5 * doy + 2) / 153
  let m := if mp < 10 then mp + 3 else mp - 9
  let y := yoe + era * 400 + (if m ≤ 2 then 1 else 0)
  12 * y + (m - 1)

/-- Group a table by a key, summing `quantity` per key, keys ascending
(`groupby(key)['quantity'].sum()`). -/
def groupSum (key : Rec → Nat) (df : List Rec) : List (Nat × Rat) :=
  (df.foldr (fun r ks => insSorted ltN (key r) ks) []).map
    (fun k => (k, ((df.filter (fun r => key r == k)).map (fun r => r.quantity)).sum))

/-- `get_activity_timeline` of `logic.py`: the existence of the category
in the unfiltered table is validated first (raising the activity-not-found
condition), then the rows are filtered and grouped by the period selector;
an unrecognized selector raises the invalid-period condition. -/
def get_activity_timeline (df : List Rec) (activity : String) (group_by : String) :
    Except TLErr (List (Nat × Rat)) :=
  if !(df.any (fun r => r.activity == activity)) then .error .activityNotFound
  else
    let adf := df.filter (fun r => r.activity == activity)
    if group_by = "day" then .ok (groupSum (fun r => r.date) adf)
    else if group_by = "week" then .ok (groupSum (fun r => weekOf r.timestamp) adf)
    else if group_by = "month" then .ok (groupSum (fun r => monthOf r.timestamp) adf)
    else .error .invalidPeriod

/-! ### The display formatter -/

/-- A loosely-typed entry handed to `format_activity_summary` (a parsed
AI response element or a `to_dict('records')` row): `activity` a string,
`quantity` any cell-like value, `unit` possibly missing
(`dict.get('unit', '')`). -/
structure LooseEntry where
  activity : String
  quantity : Cell
  unit : Option String
deriving DecidableEq, Repr

/-- Model of `float(x)` as used in the formatter: numeric values coerce,
everything else raises (and the `except` branch substitutes 0.0). -/
def floatOf : Cell → Option Rat
  | Cell.num q => some q
  | _ => none

/-- Whitespace stripped from both ends of a character list. -/
def stripChars (l : List Char) : List Char :=
  ((l.dropWhile (fun c => c.isWhitespace)).reverse.dropWhile
    (fun c => c.isWhitespace)).reverse

/-- Model of python `str.strip()`: whitespace removed from both ends. -/
def pyStrip (s : String) : String := String.mk (stripChars s.data)

/-- Model of `"{:.1f}".format(q)`: one decimal digit, ties to even. -/
def fmt1 (q : Rat) : String :=
  let n := rhe (q * 10)
  let sign := if n < 0 then "-" else ""
  sign ++ toString (n.natAbs / 10) ++ "." ++ toString (n.natAbs % 10)

/-- `format_activity_summary` of `logic.py`: the fixed sentinel for an
empty list; otherwise one part per entry, `"- {activity}: {quantity to
one decimal} {unit}"` stripped of surrounding whitespace, joined with the
separator the source actually uses — the two-character text
backslash-`n` (the python source says `"\\n".join(...)`), not a newline. -/
def format_activity_summary (entries : List LooseEntry) : String :=
  if entries.isEmpty then "No activities logged yet."
  else
    String.intercalate "\\n" (entries.map (fun e =>
      pyStrip ("- " ++ e.activity ++ ": " ++ fmt1 ((floatOf e.quantity).getD 0)
        ++ " " ++ e.unit.getD "")))

/-! ### Dataframe-level aggregators with explicit caller state

To settle the frame-effect claim, the four read-only analysis functions
are also embedded at dataframe level as state transformers: each takes
the caller's dataframe and returns its result *paired with the dataframe
as the caller sees it after the call*.  Boolean-mask selection in pandas
copies, and the only in-place column assignment in these functions
(`activity_df['week'] = ...` / `['month'] = ...`) targets the explicit
`.copy()` made of the filtered subset, so no operation ever reaches the
caller's object. -/

/-- Order on cells used to present grouping keys (kind rank, then
payload); an opaque total order standing in for pandas group-key
ordering. -/
def cellRank : Cell → Nat
  | Cell.na => 0
  | Cell.ts _ => 1
  | Cell.num _ => 2
  | Cell.date _ => 3
  | Cell.per _ => 4
  | Cell.str _ => 5

/-- Boolean comparator on cells (see `cellRank`). -/
def cellLt (a b : Cell) : Bool :=
  match a, b with
  | Cell.ts x, Cell.ts y => decide (x < y)
  | Cell.num x, Cell.num y => decide (x < y)
  | Cell.date x, Cell.date y => decide (x < y)
  | Cell.per x, Cell.per y => decide (x < y)
  | Cell.str x, Cell.str y => ltS x y
  | a, b => decide (cellRank a < cellRank b)

/-- A cell's contribution to a quantity sum (missing values sum as 0, as
pandas skips NaN). -/
def cellQ (c : Cell) : Rat := (toNumeric c).getD 0

/-- The sorted distinct keys of a dataframe column. -/
def dfKeys (df : DF) (keyCol : String) : List Cell :=
  (df.rows.map (fun r => getAt r (idxOf keyCol df.cols))).foldr (insSorted cellLt) []

/-- `groupby(keyCol)['quantity'].sum().reset_index()` at dataframe level. -/
def dfGroupSum (df : DF) (keyCol : String) : DF :=
  ⟨[keyCol, "quantity"],
   (dfKeys df keyCol).map (fun k =>
     [k, Cell.num (((df.rows.filter (fun r => getAt r (idxOf keyCol df.cols) == k)).map
         (fun r => cellQ (getAt r (idxOf "quantity" df.cols)))).sum)])⟩

/-- `df[c] = column` — replace the column when present, else append it. -/
def dfSetCol (df : DF) (c : String) (f : List Cell → Cell) : DF :=
  if df.cols.contains c then
    ⟨df.cols, df.rows.map (fun r => setAt r (idxOf c df.cols) (f r))⟩
  else ⟨df.cols ++ [c], df.rows.map (fun r => r ++ [f r])⟩

/-- Ascending insertion for row sorting (`sort_values`). -/
def insRowBy (key : List Cell → Cell) (a : List Cell) :
    List (List Cell) → List (List Cell)
  | [] => [a]
  | b :: t => if cellLt (key a) (key b) then a :: b :: t else b :: insRowBy key a t

/-- `sort_values(by=c)` at dataframe level. -/
def dfSortValues (df : DF) (c : String) : DF :=
  ⟨df.cols, df.rows.foldr (insRowBy (fun r => getAt r (idxOf c df.cols))) []⟩

/-- `get_totals` at dataframe level, paired with the caller's dataframe
after the call (the source only reads `df`). -/
def get_totals_fr (df : DF) : List (Cell × Rat) × DF :=
  (if df.rows.isEmpty then []
   else (dfKeys df "activity").map (fun k =>
     (k, round2 (((df.rows.filter (fun r => getAt r (idxOf "activity" df.cols) == k)).map
         (fun r => cellQ (getAt r (idxOf "quantity" df.cols)))).sum))),
   df)

/-- `get_today_activities` at dataframe level, paired with the caller's
dataframe after the call; `today` stands for `datetime.now().date()`. -/
def get_today_activities_fr (df : DF) (today : Nat) : DF × DF :=
  (dfSortValues
     ⟨df.cols, df.rows.filter (fun r => getAt r (idxOf "date" df.cols) == Cell.date today)⟩
     "timestamp",
   df)

/-- The error condition of `get_date_range_activities`. -/
inductive RangeErr where
  | invalidRange : RangeErr
deriving DecidableEq, Repr

/-- `get_date_range_activities` at dataframe level, paired with the
caller's dataframe after the call.  Comparisons against a missing or
non-date cell are false, as NaN comparisons are in pandas. -/
def get_date_range_activities_fr (df : DF) (s e : Nat) : Except RangeErr DF × DF :=
  if e < s then (.error .invalidRange, df)
  else
    (.ok ⟨df.cols, df.rows.filter (fun r =>
        match getAt r (idxOf "date" df.cols) with
        | Cell.date x => decide (s ≤ x) && decide (x ≤ e)
        | _ => false)⟩,
     df)

/-- `dt.to_period('W')` on one cell of the copied subset's timestamp
column. -/
def periodW (c : Cell) : Cell :=
  match c with
  | Cell.ts t => Cell.per (weekOf t)
  | _ => Cell.na

/-- `dt.to_period('M')` on one cell of the copied subset's timestamp
column. -/
def periodM (c : Cell) : Cell :=
  match c with
  | Cell.ts t => Cell.per (monthOf t)
  | _ => Cell.na

/-- `get_activity_timeline` at dataframe level, paired with the caller's
dataframe after the call.  The filtered subset (`df[mask].copy()`) is an
independent frame; the `week`/`month` period column is assigned on that
copy only. -/
def get_activity_timeline_fr (df : DF) (activity group_by : String) :
    Except TLErr DF × DF :=
  if !((df.rows.map (fun r => getAt r (idxOf "activity" df.cols))).contains
        (Cell.str activity)) then
    (.error .activityNotFound, df)
  else
    let adf : DF :=
      ⟨df.cols, df.rows.filter (fun r =>
        getAt r (idxOf "activity" df.cols) == Cell.str activity)⟩
    if group_by = "day" then (.ok (dfGroupSum adf "date"), df)
    else if group_by = "week" then
      (.ok (dfGroupSum
        (dfSetCol adf "week" (fun r => periodW (getAt r (idxOf "timestamp" adf.cols))))
        "week"), df)
    else if group_by = "month" then
      (.ok (dfGroupSum
        (dfSetCol adf "month" (fun r => periodM (getAt r (idxOf "timestamp" adf.cols))))
        "month"), df)
    else (.error .invalidPeriod, df)

/-! ### Lemmas about sorted key insertion and related list facts -/

theorem mem_insSorted {α : Type} [DecidableEq α] (lt : α → α → Bool) (a x : α) :
    ∀ l : List α, (x ∈ insSorted lt a l ↔ x = a ∨ x ∈ l)
  | [] => by simp [insSorted]
  | b :: t => by
    by_cases hab : a = b
    · subst hab
      simp only [insSorted, if_pos rfl]
      constructor
      · exact fun hx => Or.inr hx
      · rintro (hx | hx)
        · exact hx ▸ List.mem_cons_self a t
        · exact hx
    · by_cases hlt : lt a b
      · simp only [insSorted, if_neg hab, if_pos hlt]
        simp [List.mem_cons]
      · simp only [insSorted, if_neg hab, if_neg hlt]
        have ih := mem_insSorted lt a x t
        simp only [List.mem_cons] at ih ⊢
        tauto

theorem ltS_iff {a b : String} : ltS a b = true ↔ a < b := by
  rw [ltS, decide_eq_true_eq]
  exact String.lt_iff_toList_lt.symm

theorem pairwise_insSorted_str (a : String) :
    ∀ l : List String, l.Pairwise (· < ·) → (insSorted ltS a l).Pairwise (· < ·)
  | [], _ => by simp [insSorted]
  | b :: t, h => by
    by_cases hab : a = b
    · simpa [insSorted, if_pos hab] using h
    · by_cases hlt : ltS a b
      · have hab' : a < b := ltS_iff.mp hlt
        simp only [insSorted, if_neg hab, if_pos hlt]
        refine List.Pairwise.cons ?_ h
        intro x hx
        rcases List.mem_cons.mp hx with hx | hx
        · exact hx ▸ hab'
        · exact lt_trans hab' (List.rel_of_pairwise_cons h hx)
      · have hba : b < a := by
          rcases lt_trichotomy a b with hc | hc | hc
          · exact absurd (ltS_iff.mpr hc) hlt
          · exact absurd hc hab
          · exact hc
        simp only [insSorted, if_neg hab, if_neg hlt]
        refine List.Pairwise.cons ?_ (pairwise_insSorted_str a t (List.Pairwise.of_cons h))
        intro x hx
        rcases (mem_insSorted ltS a x t).mp hx with hx | hx
        · exact hx ▸ hba
        · exact List.rel_of_pairwise_cons h hx

theorem actKeys_mem (df : List Rec) (a : String) :
    a ∈ actKeys df ↔ ∃ r ∈ df, r.activity = a := by
  induction df with
  | nil => simp [actKeys]
  | cons r t ih =>
    show a ∈ insSorted ltS r.activity (actKeys t) ↔ _
    rw [mem_insSorted, ih]
    constructor
    · rintro (h | ⟨x, hx, hxa⟩)
      · exact ⟨r, List.mem_cons_self r t, h.symm⟩
      · exact ⟨x, List.mem_cons_of_mem r hx, hxa⟩
    · rintro ⟨x, hx, hxa⟩
      rcases List.mem_cons.mp hx with hx | hx
      · exact Or.inl (hx ▸ hxa).symm
      · exact Or.inr ⟨x, hx, hxa⟩

theorem actKeys_pairwise (df : List Rec) : (actKeys df).Pairwise (· < ·) := by
  induction df with
  | nil => simp [actKeys]
  | cons r t ih => exact pairwise_insSorted_str r.activity (actKeys t) ih

theorem list_map_eq_self {α : Type} {f : α → α} :
    ∀ {l : List α}, l.map f = l → ∀ x ∈ l, f x = x := by
  intro l
  induction l with
  | nil => intro _ x hx; simp at hx
  | cons a t ih =>
    intro h x hx
    rw [List.map_cons, List.cons.injEq] at h
    rcases List.mem_cons.mp hx with hx | hx
    · exact hx ▸ h.1
    · exact ih h.2 x hx

theorem filterMap_eq_map_of {α β : Type} {p : α → Option β} {g : α → β} :
    ∀ {l : List α}, (∀ a ∈ l, p a = some (g a)) → l.filterMap p = l.map g := by
  intro l
  induction l with
  | nil => intro _; rfl
  | cons a t ih =>
    intro h
    rw [List.filterMap_cons, h a (List.mem_cons_self a t), List.map_cons,
      ih fun x hx => h x (List.mem_cons_of_mem a hx)]

/-! ### Evaluation helpers for rationals

Concrete rational arithmetic is evaluated through `norm_num`; these
lemmas reduce the rounding and formatting helpers on inputs whose scaled
value is a whole number (the only rounding cases the claims exercise). -/

theorem rhe_intCast (n : Int) : rhe ((n : Int) : Rat) = n := by
  simp only [rhe, ratFloor, Rat.num_intCast, Rat.den_intCast, Nat.cast_one,
    Int.fdiv_one, sub_self]
  rw [if_pos (by norm_num : (0 : Rat) < 1 / 2)]

theorem round2_eq (q : Rat) (n : Int) (h : q * 100 = (n : Rat)) :
    round2 q = (n : Rat) / 100 := by
  simp only [round2]
  rw [h, rhe_intCast]

theorem fmt1_eq (q : Rat) (n : Int) (h : q * 10 = (n : Rat)) :
    fmt1 q = (if n < 0 then "-" else "")
      ++ toString (n.natAbs / 10) ++ "." ++ toString (n.natAbs % 10) := by
  simp only [fmt1]
  rw [h, rhe_intCast]

/-! ### Claim theorems -/

/-- C1: round-trip — saving a well-formed batch (fields present, labels
not the reserved text "nan") to an initially-absent store and loading it
back yields exactly one row per batch record, with the record's fields,
a missing timestamp defaulted to the save instant, and `date` derived
from the timestamp. -/
theorem save_load_roundtrip (now : Nat) (batch : List InRec)
    (hA : ∀ r ∈ batch, r.activity ≠ "nan") (hU : ∀ r ∈ batch, r.unit ≠ "nan") :
    load_data (save_to_csv now batch none).2
      = some ⟨canonCols, batch.map (fun a =>
          [Cell.ts (a.timestamp.getD now), Cell.str a.activity, Cell.num a.quantity,
           Cell.str a.unit, Cell.date (a.timestamp.getD now / 86400)])⟩ := by
  have hsave : (save_to_csv now batch none).2 = some ⟨canonCols, batch.map (recRow now)⟩ := rfl
  rw [hsave]
  have hnd : canonCols.Nodup := by decide
  have hwf : StoreFile.WF ⟨canonCols, batch.map (recRow now)⟩ := by
    refine ⟨hnd, ?_⟩
    intro r hr
    rcases List.mem_map.mp hr with ⟨a, -, ha⟩
    rw [← ha]
    rfl
  rw [load_data_spec _ hwf]
  refine congrArg (fun x => some (DF.mk canonCols x)) ?_
  show (batch.map (recRow now)).filterMap
      (cleanRow (renamedCols canonCols)) = _
  rw [show renamedCols canonCols = canonCols from by decide, List.filterMap_map]
  apply filterMap_eq_map_of
  intro a ha
  show cleanRow canonCols (recRow now a) = _
  simp [cleanRow, recRow, canonCols, idxOf, getAt, toDatetime, toNumeric,
    astypeStr, scrub, hA a ha, hU a ha]

/-- C1 witness: a concrete two-record batch round-trips through an absent
store. -/
theorem save_load_roundtrip_witness :
    load_data (save_to_csv 100 [⟨"Water", 500, "ml", none⟩, ⟨"Walk", 2, "km", some 90000⟩] none).2
      = some ⟨canonCols,
          [[Cell.ts 100, Cell.str "Water", Cell.num 500, Cell.str "ml", Cell.date 0],
           [Cell.ts 90000, Cell.str "Walk", Cell.num 2, Cell.str "km", Cell.date 1]]⟩ :=
  save_load_roundtrip 100 _ (by decide) (by decide)

/-- C2: load postcondition — for a well-formed store file, the loaded
table is exactly the per-row filter-and-clean pass: rows whose
`timestamp` or `quantity` cell fails its coercion are absent, each row
with both valid appears exactly once (positionally), and every surviving
row is fully typed with `date` equal to the calendar day of its cleaned
timestamp, whatever `date` cell was on disk. -/
theorem load_clean_postcondition (f : StoreFile) (hf : f.WF) :
    load_data (some f)
      = some ⟨canonCols, f.rows.filterMap (cleanRow (renamedCols f.header))⟩
    ∧ ∀ row ∈ f.rows.filterMap (cleanRow (renamedCols f.header)),
        ∃ t a q u, row
          = [Cell.ts t, Cell.str a, Cell.num q, Cell.str u, Cell.date (t / 86400)] := by
  refine ⟨load_data_spec f hf, ?_⟩
  intro row hrow
  rcases List.mem_filterMap.mp hrow with ⟨r, -, hc⟩
  unfold cleanRow at hc
  rcases h1 : toDatetime (getAt r (idxOf "timestamp" (renamedCols f.header))) with - | t
  · rw [h1] at hc
    simp at hc
  · rcases h2 : toNumeric (getAt r (idxOf "quantity" (renamedCols f.header))) with - | q
    · rw [h1, h2] at hc
      simp at hc
    · rw [h1, h2] at hc
      simp only [Option.some.injEq] at hc
      exact ⟨t, _, q, _, hc.symm⟩

/-- C2 witness: a store with one valid row (carrying a wrong disk `date`)
and one row with an unparseable timestamp loads to just the valid row,
its `date` recomputed from the timestamp. -/
theorem load_clean_postcondition_witness :
    load_data (some ⟨canonCols,
        [[Cell.ts 100, Cell.str "Water", Cell.num 500, Cell.str "ml", Cell.date 9],
         [Cell.str "bad", Cell.str "Walk", Cell.num 2, Cell.str "km", Cell.na]]⟩)
      = some ⟨canonCols,
          [[Cell.ts 100, Cell.str "Water", Cell.num 500, Cell.str "ml", Cell.date 0]]⟩ := by
  rw [(load_clean_postcondition _ ⟨by decide, by decide⟩).1]
  decide

/-- Two same-day-span records 23:00 and 01:00 of consecutive days:
calendar dates differ by one, raw timestamps by two hours. -/
def dfC3 : List Rec :=
  [⟨82800, "Water", 1, "ml", 0⟩, ⟨90000, "Water", 1, "ml", 1⟩]

/-- C3 counterexample: on `dfC3` the summary's `days_tracked` is 1
(floor of the raw two-hour timestamp difference in days, plus one), while
the claimed date-based inclusive span `date(max) - date(min) + 1` is 2 —
so `days_tracked` is not computed over calendar dates. -/
theorem summary_dayspan_counterexample :
    (get_data_summary dfC3).map Summary.days_tracked = some 1
    ∧ tsMax dfC3 / 86400 - tsMin dfC3 / 86400 + 1 = 2
    ∧ ¬ ((get_data_summary dfC3).map Summary.days_tracked
        = some (tsMax dfC3 / 86400 - tsMin dfC3 / 86400 + 1)) := by decide

/-- C3 (amended): for every non-empty Cleaned Table, `days_tracked`
equals the floor of the raw max-minus-min timestamp difference in whole
days, plus 1 — `(df['timestamp'].max() - df['timestamp'].min()).days + 1`
on raw timestamps, not on calendar dates. -/
theorem summary_dayspan_amended (df : List Rec) (h : df ≠ []) :
    (get_data_summary df).map Summary.days_tracked
      = some ((tsMax df - tsMin df) / 86400 + 1) := by
  have hne : df.isEmpty = false := by simpa [List.isEmpty_iff] using h
  simp [get_data_summary, hne]

/-- C3 witness: the amended formula evaluated on `dfC3`. -/
theorem summary_dayspan_amended_witness :
    (get_data_summary dfC3).map Summary.days_tracked
      = some ((tsMax dfC3 - tsMin dfC3) / 86400 + 1) :=
  summary_dayspan_amended dfC3 (by decide)

/-- C4: timeline validation — the activity-not-found condition is raised
iff the category has no matching row in the unfiltered input (hence
always on an empty table, whatever the period selector), and when the
category exists an unrecognized period selector raises the invalid-period
condition. -/
theorem timeline_validation (df : List Rec) (a p : String) :
    (get_activity_timeline df a p = .error .activityNotFound
      ↔ (df.filter (fun r => r.activity == a)).length = 0)
    ∧ ((df.filter (fun r => r.activity == a)).length ≠ 0 →
        p ≠ "day" → p ≠ "week" → p ≠ "month" →
        get_activity_timeline df a p = .error .invalidPeriod)
    ∧ (df = [] → get_activity_timeline df a p = .error .activityNotFound) := by
  by_cases hany : df.any (fun r => r.activity == a)
  · have hlen : (df.filter (fun r => r.activity == a)).length ≠ 0 := by
      rcases List.any_eq_true.mp hany with ⟨r, hr, hra⟩
      have : r ∈ df.filter (fun r => r.activity == a) := List.mem_filter.mpr ⟨hr, hra⟩
      intro h0
      rw [List.length_eq_zero.mp h0] at this
      simp at this
    refine ⟨?_, ?_, ?_⟩
    · constructor
      · intro hres
        unfold get_activity_timeline at hres
        rw [hany] at hres
        simp only [Bool.not_true, Bool.false_eq_true, if_false] at hres
        split at hres
        · exact absurd hres (by simp)
        · split at hres
          · exact absurd hres (by simp)
          · split at hres
            · exact absurd hres (by simp)
            · simp at hres
      · exact fun h0 => absurd h0 hlen
    · intro _ hd hw hm
      unfold get_activity_timeline
      rw [hany]
      simp only [Bool.not_true, Bool.false_eq_true, if_false]
      rw [if_neg hd, if_neg hw, if_neg hm]
    · intro hdf
      subst hdf
      simp at hany
  · have hany' : df.any (fun r => r.activity == a) = false := by
      simpa using hany
    have hres : get_activity_timeline df a p = .error .activityNotFound := by
      unfold get_activity_timeline
      rw [hany']
      rfl
    have hlen : (df.filter (fun r => r.activity == a)).length = 0 := by
      rw [List.length_eq_zero, List.filter_eq_nil_iff]
      intro r hr
      have := List.any_eq_false.mp hany' r hr
      simpa using this
    exact ⟨⟨fun _ => hlen, fun _ => hres⟩, fun h0 => absurd hlen h0, fun _ => hres⟩

/-- C4 witness: the empty table raises activity-not-found even with a
valid period, and an unknown period on a table containing the category
raises invalid-period. -/
theorem timeline_validation_witness :
    get_activity_timeline [] "Water" "day" = .error .activityNotFound
    ∧ get_activity_timeline [⟨0, "Water", 500, "ml", 0⟩] "Water" "year"
        = .error .invalidPeriod :=
  ⟨(timeline_validation [] "Water" "day").2.2 rfl,
   (timeline_validation [⟨0, "Water", 500, "ml", 0⟩] "Water" "year").2.1
     (by decide) (by decide) (by decide) (by decide)⟩

/-- C5: totals — the result has one entry per category present, keyed by
the category, valued by the 2-decimal rounding of the quantity sum over
that category's rows, with keys in ascending lexical order; the empty
table gives the empty result, and the four-row example evaluates to
`{Walk: 5.5, Water: 1250.0}` in that order. -/
theorem totals_by_category (df : List Rec) (a : String) (v : Rat) :
    (get_totals df).Pairwise (fun x y => x.1 < y.1)
    ∧ ((a, v) ∈ get_totals df ↔ (∃ r ∈ df, r.activity = a) ∧ v = round2 (sumQ df a))
    ∧ get_totals [] = []
    ∧ get_totals [⟨0, "Water", 500, "ml", 0⟩, ⟨1, "Walk", 2, "km", 0⟩,
        ⟨2, "Water", 750, "ml", 0⟩, ⟨3, "Walk", 7 / 2, "km", 0⟩]
      = [("Walk", 11 / 2), ("Water", 1250)] := by
  refine ⟨?_, ?_, rfl, ?_⟩
  · unfold get_totals
    split
    · exact List.Pairwise.nil
    · rw [List.pairwise_map]
      exact actKeys_pairwise df
  · unfold get_totals
    split
    · rename_i hemp
      rw [List.isEmpty_iff.mp hemp]
      simp
    · rename_i hemp
      rw [List.mem_map]
      constructor
      · rintro ⟨k, hk, hkv⟩
        rw [Prod.mk.injEq] at hkv
        exact ⟨(actKeys_mem df k).mp hk |>.imp (fun r hr => ⟨hr.1, hkv.1 ▸ hr.2⟩),
          by rw [← hkv.2, hkv.1]⟩
      · rintro ⟨hex, hv⟩
        exact ⟨a, (actKeys_mem df a).mpr hex, by rw [hv]⟩
  · have hkeys : actKeys [⟨0, "Water", 500, "ml", 0⟩, ⟨1, "Walk", 2, "km", 0⟩,
        ⟨2, "Water", 750, "ml", 0⟩, ⟨3, "Walk", 7 / 2, "km", 0⟩] = ["Walk", "Water"] := by
      decide
    have hW : sumQ [⟨0, "Water", 500, "ml", 0⟩, ⟨1, "Walk", 2, "km", 0⟩,
        ⟨2, "Water", 750, "ml", 0⟩, ⟨3, "Walk", 7 / 2, "km", 0⟩] "Walk" = 11 / 2 := by
      simp [sumQ]
      norm_num
    have hA : sumQ [⟨0, "Water", 500, "ml", 0⟩, ⟨1, "Walk", 2, "km", 0⟩,
        ⟨2, "Water", 750, "ml", 0⟩, ⟨3, "Walk", 7 / 2, "km", 0⟩] "Water" = 1250 := by
      simp [sumQ]
      norm_num
    unfold get_totals
    rw [if_neg (by decide), hkeys]
    simp only [List.map_cons, List.map_nil]
    rw [hW, hA, round2_eq _ 550 (by norm_num), round2_eq _ 125000 (by norm_num)]
    norm_num

/-- C5 witness: the four-row example, via the theorem. -/
theorem totals_by_category_witness :
    get_totals [⟨0, "Water", 500, "ml", 0⟩, ⟨1, "Walk", 2, "km", 0⟩,
        ⟨2, "Water", 750, "ml", 0⟩, ⟨3, "Walk", 7 / 2, "km", 0⟩]
      = [("Walk", 11 / 2), ("Water", 1250)] :=
  (totals_by_category [] "" 0).2.2.2

/-- The first occurrence of a mapped name keeps its position: used to show
a canonical column already present is never displaced by the rename. -/
theorem idxOf_map_of_fix (f : String → String) (v : String) (hv : f v = v)
    (hinj : ∀ c, f c = v → c = v) :
    ∀ cols : List String, idxOf v (cols.map f) = idxOf v cols := by
  intro cols
  induction cols with
  | nil => rfl
  | cons x t ih =>
    by_cases hx : x = v
    · subst hx
      simp [idxOf, hv]
    · have hfx : f x ≠ v := fun hh => hx (hinj x hh)
      simp [idxOf, hx, hfx, ih]

/-- C6: backward-compatible renaming — a legacy column is renamed to its
canonical counterpart exactly when the canonical name is not already
present; an already-present canonical column keeps its position (it is
never overwritten by the rename); and a store written entirely with
legacy column names loads identically to one written with canonical
names over the same rows. -/
theorem legacy_rename (rows : List (List Cell)) (hlen : ∀ r ∈ rows, r.length = 4) :
    load_data (some ⟨["tidspunkt", "aktivitet", "mengde", "enhet"], rows⟩)
      = load_data (some ⟨["timestamp", "activity", "quantity", "unit"], rows⟩)
    ∧ (∀ cols : List String, ∀ k v : String, (k, v) ∈ legacyMap →
        (v ∉ cols → renameCol cols k = v)
        ∧ (v ∈ cols → renameCol cols k = k)
        ∧ (v ∈ cols → idxOf v (renamedCols cols) = idxOf v cols)) := by
  constructor
  · have hnd1 : (["tidspunkt", "aktivitet", "mengde", "enhet"] : List String).Nodup := by
      decide
    have hnd2 : (["timestamp", "activity", "quantity", "unit"] : List String).Nodup := by
      decide
    have hwf1 : StoreFile.WF ⟨["tidspunkt", "aktivitet", "mengde", "enhet"], rows⟩ :=
      ⟨hnd1, hlen⟩
    have hwf2 : StoreFile.WF ⟨["timestamp", "activity", "quantity", "unit"], rows⟩ :=
      ⟨hnd2, hlen⟩
    rw [load_data_spec _ hwf1, load_data_spec _ hwf2]
    rw [show renamedCols ["tidspunkt", "aktivitet", "mengde", "enhet"]
        = ["timestamp", "activity", "quantity", "unit"] from by decide,
      show renamedCols ["timestamp", "activity", "quantity", "unit"]
        = ["timestamp", "activity", "quantity", "unit"] from by decide]
  · intro cols k v hkv
    have hlook : legacyMap.lookup k = some v ∧ legacyMap.lookup v = none := by
      simp only [legacyMap, List.mem_cons, List.not_mem_nil, or_false] at hkv
      rcases hkv with h | h | h | h <;>
        (rw [Prod.mk.injEq] at h; rcases h with ⟨h1, h2⟩; subst h1; subst h2;
          exact ⟨by rfl, by rfl⟩)
    refine ⟨?_, ?_, ?_⟩
    · intro hv
      unfold renameCol
      rw [hlook.1]
      show (if cols.contains v = true then k else v) = v
      rw [if_neg (by simpa using hv)]
    · intro hv
      unfold renameCol
      rw [hlook.1]
      show (if cols.contains v = true then k else v) = k
      rw [if_pos (by simpa using hv)]
    · intro hv
      apply idxOf_map_of_fix
      · unfold renameCol
        rw [hlook.2]
      · intro c hc
        unfold renameCol at hc
        rcases hl : legacyMap.lookup c with - | v'
        · rw [hl] at hc
          exact hc
        · rw [hl] at hc
          have hc' : (if cols.contains v' = true then c else v') = v := hc
          by_cases hcon : cols.contains v'
          · rw [if_pos hcon] at hc'
            exact hc'
          · rw [if_neg hcon] at hc'
            subst hc'
            exact absurd (by simpa using hv) hcon

/-- C6 witness: a one-row legacy-named store loads equal to the
canonical-named store, and that value is the cleaned table. -/
theorem legacy_rename_witness :
    load_data (some ⟨["tidspunkt", "aktivitet", "mengde", "enhet"],
        [[Cell.ts 100, Cell.str "Water", Cell.num 500, Cell.str "ml"]]⟩)
      = load_data (some ⟨["timestamp", "activity", "quantity", "unit"],
          [[Cell.ts 100, Cell.str "Water", Cell.num 500, Cell.str "ml"]]⟩)
    ∧ load_data (some ⟨["timestamp", "activity", "quantity", "unit"],
        [[Cell.ts 100, Cell.str "Water", Cell.num 500, Cell.str "ml"]]⟩)
      = some ⟨canonCols,
          [[Cell.ts 100, Cell.str "Water", Cell.num 500, Cell.str "ml", Cell.date 0]]⟩ :=
  ⟨(legacy_rename _ (by decide)).1, by decide⟩

/-- C7: absent versus empty — `load_data` returns the absent-result
exactly on a missing store file; on every existing file the result is a
table carrying the five canonical columns, which is empty when the file
parses to zero rows or when no row survives cleaning. -/
theorem absent_vs_empty :
    load_data none = none
    ∧ (∀ f : StoreFile, (load_data (some f)).map DF.cols = some canonCols)
    ∧ (∀ f : StoreFile, f.rows = [] → load_data (some f) = some ⟨canonCols, []⟩)
    ∧ (∀ f : StoreFile, f.WF →
        (∀ r ∈ f.rows,
          toDatetime (getAt r (idxOf "timestamp" (renamedCols f.header))) = none
          ∨ toNumeric (getAt r (idxOf "quantity" (renamedCols f.header))) = none) →
        load_data (some f) = some ⟨canonCols, []⟩) := by
  refine ⟨rfl, ?_, ?_, ?_⟩
  · intro f
    rcases f with ⟨h, rows⟩
    by_cases hrows : rows.isEmpty
    · simp [load_data, hrows]
    · simp only [load_data, hrows, Bool.false_eq_true, if_false]
      split
      · rfl
      · rfl
  · intro f hrows
    rcases f with ⟨h, rows⟩
    simp only at hrows
    subst hrows
    simp [load_data]
  · intro f hwf hbad
    rw [load_data_spec f hwf]
    refine congrArg (fun x => some (DF.mk canonCols x)) ?_
    rw [List.filterMap_eq_nil_iff]
    intro r hr
    unfold cleanRow
    rcases hbad r hr with hb | hb
    · rw [hb]
    · rw [hb]
      rcases toDatetime (getAt r (idxOf "timestamp" (renamedCols f.header))) with - | t <;> rfl

/-- C7 witness: a present file whose single row has an unparseable
timestamp loads to the empty canonical table, not the absent-result. -/
theorem absent_vs_empty_witness :
    load_data (some ⟨canonCols,
        [[Cell.str "bad", Cell.str "Water", Cell.str "x", Cell.str "ml", Cell.na]]⟩)
      = some ⟨canonCols, []⟩ :=
  absent_vs_empty.2.2.2 _ ⟨by decide, by decide⟩ (by decide)

/-- C8: formatter evaluated at the failing input — the parts are as
claimed (prefix, one-decimal quantity, unit, sentinel, 0.0 fallback,
trailing-space strip), but multiple entries are joined with the literal
two-character text backslash-`n` (the python source's `"\\n"`), so the
result is one physical line containing no newline character, contrary to
the claimed one-entry-per-line rendering. -/
theorem formatter_backslash_join :
    format_activity_summary
        [⟨"Water", Cell.num 500, some "ml"⟩, ⟨"Walk", Cell.num (5 / 2), some "km"⟩]
      = "- Water: 500.0 ml\\n- Walk: 2.5 km"
    ∧ '\n' ∉ ("- Water: 500.0 ml\\n- Walk: 2.5 km").data
    ∧ format_activity_summary [] = "No activities logged yet."
    ∧ format_activity_summary [⟨"Water", Cell.num 500, some "ml"⟩] = "- Water: 500.0 ml"
    ∧ format_activity_summary [⟨"Food", Cell.str "x", some ""⟩] = "- Food: 0.0" := by
  have h1 : fmt1 (500 : Rat) = "500.0" := by
    rw [fmt1_eq (500 : Rat) 5000 (by norm_num)]
    decide
  have h2 : fmt1 ((5 : Rat) / 2) = "2.5" := by
    rw [fmt1_eq ((5 : Rat) / 2) 25 (by norm_num)]
    decide
  have h0 : fmt1 (0 : Rat) = "0.0" := by
    rw [fmt1_eq (0 : Rat) 0 (by norm_num)]
    decide
  refine ⟨?_, by decide, rfl, ?_, ?_⟩
  · unfold format_activity_summary
    rw [if_neg (by decide)]
    simp only [List.map_cons, List.map_nil]
    rw [show (floatOf (Cell.num 500)).getD 0 = (500 : Rat) from rfl,
      show (floatOf (Cell.num (5 / 2))).getD 0 = ((5 : Rat) / 2) from rfl, h1, h2]
    decide
  · unfold format_activity_summary
    rw [if_neg (by decide)]
    simp only [List.map_cons, List.map_nil]
    rw [show (floatOf (Cell.num 500)).getD 0 = (500 : Rat) from rfl, h1]
    decide
  · unfold format_activity_summary
    rw [if_neg (by decide)]
    simp only [List.map_cons, List.map_nil]
    rw [show (floatOf (Cell.str "x")).getD 0 = (0 : Rat) from rfl, h0]
    decide

/-- C9: `save_to_csv` writes into the caller's record dictionaries — the
batch as seen by the caller after the call is the stamped batch, every
record that lacked a timestamp now carries the save instant, and a batch
containing such a record is not left unchanged. -/
theorem save_mutates_batch (now : Nat) (batch : List InRec) (fs : Option StoreFile) :
    (save_to_csv now batch fs).1 = batch.map (stampRec now)
    ∧ (∀ r ∈ batch, r.timestamp = none → (stampRec now r).timestamp = some now)
    ∧ ((∃ r ∈ batch, r.timestamp = none) → (save_to_csv now batch fs).1 ≠ batch) := by
  have h1 : (save_to_csv now batch fs).1 = batch.map (stampRec now) := by
    cases fs <;> rfl
  refine ⟨h1, ?_, ?_⟩
  · intro r _ ht
    simp [stampRec, ht]
  · rintro ⟨r, hr, ht⟩ heq
    rw [h1] at heq
    have hfix := list_map_eq_self heq r hr
    have h2 : (stampRec now r).timestamp = r.timestamp := by rw [hfix]
    rw [ht] at h2
    simp [stampRec, ht] at h2

/-- C9 witness: a one-record batch without a timestamp is not left
unchanged by the save. -/
theorem save_mutates_batch_witness :
    (save_to_csv 42 [⟨"Water", 500, "ml", none⟩] none).1
      ≠ [⟨"Water", 500, "ml", none⟩] :=
  (save_mutates_batch 42 [⟨"Water", 500, "ml", none⟩] none).2.2
    ⟨⟨"Water", 500, "ml", none⟩, List.mem_singleton.mpr rfl, rfl⟩

/-- C10: the four analysis functions return the caller's dataframe
unchanged — none of them performs an operation on the caller's object
(boolean-mask selection copies, and the timeline's `week`/`month` period
column is assigned on the explicit copy of the filtered subset, so the
temporary column never appears on the caller's table). -/
theorem aggregators_preserve_input (df : DF) (a p : String) (today s e : Nat) :
    (get_totals_fr df).2 = df
    ∧ (get_today_activities_fr df today).2 = df
    ∧ (get_date_range_activities_fr df s e).2 = df
    ∧ (get_activity_timeline_fr df a p).2 = df := by
  refine ⟨rfl, rfl, ?_, ?_⟩
  · unfold get_date_range_activities_fr
    split <;> rfl
  · unfold get_activity_timeline_fr
    split
    · rfl
    · dsimp only
      split
      · rfl
      · split
        · rfl
        · split <;> rfl

end LifeTrack
